import Mathlib

/-!
Verification model of `pkg/ovssubnet/subnets.go` (openshift-sdn control-plane core):
the master-side subnet reconciler (seed, sweep and node-event loop), the node-side
subnet propagator, the bootstrap retry loop, and the shared watch-loop shape.

External collaborators that are not part of the shown core (the CIDR allocator in
`pkg/netutils`, the registry in `plugins/osdn`, the api record types, Go's
`net.ParseCIDR`) are modelled from the specification; each such definition carries
a doc comment saying so.
-/

namespace OvsSubnet

/-- An IPv4 CIDR block: a 32-bit base address plus a prefix length. `net.IPNet`
values handled by the controller are modelled in this parsed form. -/
structure Cidr where
  base : Nat
  len : Nat
deriving DecidableEq, Repr

/-- Number of addresses covered by the block. -/
def Cidr.size (c : Cidr) : Nat := 2 ^ (32 - c.len)

/-- Whether two blocks share at least one address. -/
def Cidr.overlaps (c d : Cidr) : Bool :=
  decide (c.base < d.base + d.size) && decide (d.base < c.base + c.size)

/-- Whether block `c` lies inside the cluster network `n`. -/
def Cidr.inside (c n : Cidr) : Bool :=
  decide (n.base ≤ c.base) && decide (c.base + c.size ≤ n.base + n.size)

/-- Modelled from the spec: `netutils.SubnetAllocator` (pkg/netutils, not part of the
shown core). Per spec section 6 it "issues and reclaims non-overlapping sub-ranges of
a parent CIDR; pre-seeded with already-allocated ranges at startup". Its state is the
cluster network, the fixed host-subnet prefix length, and the in-memory exclusion set
of allocated ranges. -/
structure SubnetAllocator where
  network : Cidr
  subnetLen : Nat
  allocated : List Cidr
deriving DecidableEq, Repr

/-- The i-th candidate host subnet of the cluster network. -/
def SubnetAllocator.candidate (a : SubnetAllocator) (i : Nat) : Cidr :=
  ⟨a.network.base + i * 2 ^ (32 - a.subnetLen), a.subnetLen⟩

/-- Modelled from the spec: `GetNetwork() -> CIDR | ExhaustedError`. Returns the first
candidate host subnet that overlaps nothing in the exclusion set and adds it to the
exclusion set; `none` models the allocation-exhausted error. -/
def SubnetAllocator.getNetwork (a : SubnetAllocator) : Option (Cidr × SubnetAllocator) :=
  match (List.range (2 ^ (a.subnetLen - a.network.len))).find?
      (fun i => a.allocated.all fun d => !(a.candidate i).overlaps d) with
  | some i => some (a.candidate i, { a with allocated := a.candidate i :: a.allocated })
  | none => none

/-- Modelled from the spec: `ReleaseNetwork(CIDR)` reclaims a range, removing it from
the in-memory exclusion set. -/
def SubnetAllocator.releaseNetwork (a : SubnetAllocator) (c : Cidr) : SubnetAllocator :=
  { a with allocated := a.allocated.erase c }

/-- Pairwise non-overlap check used by the allocator constructor. -/
def pairwiseDisjoint : List Cidr → Bool
  | [] => true
  | c :: rest => (rest.all fun d => !c.overlaps d) && pairwiseDisjoint rest

/-- Modelled from the spec: `netutils.NewSubnetAllocator(clusterCIDR, hostSubnetLength,
inUse)`. Seeds the exclusion set with every already-allocated range and "fails fatally
... if the excluded set is inconsistent with the parent (e.g., overlap error from the
allocator)" (spec section 4.2). -/
def newSubnetAllocator (network : Cidr) (subnetLen : Nat) (inUse : List Cidr) :
    Option SubnetAllocator :=
  if network.len ≤ subnetLen ∧ subnetLen ≤ 32 ∧ pairwiseDisjoint inUse = true
      ∧ inUse.all (fun c => c.inside network) = true then
    some ⟨network, subnetLen, inUse⟩
  else none

/-- Modelled from the spec: `api.Subnet` (pkg/ovssubnet/api, not part of the shown
core), "owning node's IP, assigned CIDR" (spec section 3); the CIDR is the string the
registry stores. -/
structure Subnet where
  NodeIP : String
  SubnetCIDR : String
deriving DecidableEq, Repr

/-- Modelled from the spec: `api.Node`, "name (unique key), IP address". -/
structure Node where
  Name : String
  IP : String
deriving DecidableEq, Repr

/-- Modelled from the spec: the event kinds of the membership and subnet watches. -/
inductive EventType
  | Added
  | Deleted
deriving DecidableEq, Repr

/-- Modelled from the spec: `api.NodeEvent` (fields `Type` and `Node` in Go; `Type` is
a reserved word in Lean, so the fields are `kind` and `node`). -/
structure NodeEvent where
  kind : EventType
  node : Node
deriving DecidableEq, Repr

/-- Modelled from the spec: `api.SubnetEvent` (fields `Type` and `Subnet` in Go). -/
structure SubnetEvent where
  kind : EventType
  subnet : Subnet
deriving DecidableEq, Repr

/-- Parsed form of `api.Subnet` used in the master-state model. The Go code stores
`sn.String()` and re-parses it with `net.ParseCIDR` in `deleteNode`; for records the
master itself writes, parsing is the exact inverse of printing, so the master model
keeps the parsed `Cidr` directly. The string-level `deleteNode`, with its parse-failure
path, is modelled separately as `deleteNodeS`. -/
structure SubnetM where
  NodeIP : String
  SubnetCIDR : Cidr
deriving DecidableEq, Repr

/-- Modelled from the spec: the registry's subnet table (plugins/osdn Registry, not
part of the shown core), "keyed by node name in the registry; one per node" (spec
section 3), as an association list. -/
abbrev Registry := List (String × SubnetM)

/-- Modelled from the spec: `GetSubnet(nodeName) -> (Subnet, error)`; in the reliable
registry `none` is exactly the not-found error. -/
def Registry.getSubnet (reg : Registry) (name : String) : Option SubnetM :=
  (reg.find? fun p => p.1 == name).map Prod.snd

/-- Modelled from the spec: `DeleteSubnet(nodeName) -> error`; removes the record
stored under the node name. -/
def Registry.deleteSubnet (reg : Registry) (name : String) : Registry :=
  reg.eraseP fun p => p.1 == name

/-- Modelled from the spec: `CreateSubnet(nodeName, Subnet) -> error`; stores the
record under the node name (at most one live record per name, spec section 3). -/
def Registry.createSubnet (reg : Registry) (name : String) (sub : SubnetM) : Registry :=
  (name, sub) :: Registry.deleteSubnet reg name

/-- The error outcomes the modelled operations can surface. -/
inductive SdnErr
  | allocExhausted
  | invalidNodeIP
  | noSubnet
  | parseFailed
deriving DecidableEq, Repr

/-- The master-side state the reconciler mutates: the allocator plus the registry's
subnet table. -/
structure MasterState where
  alloc : SubnetAllocator
  reg : Registry
deriving DecidableEq, Repr

/-- `addNode` (subnets.go lines 74-95). Note the source order: `GetNetwork()` is
called before the node-IP validity check, so an invalid IP still consumes a network
from the allocator's pool; the registry write happens only on the success path. -/
def MasterState.addNode (st : MasterState) (nodeName nodeIP : String) :
    MasterState × Option SdnErr :=
  match st.alloc.getNetwork with
  | none => (st, some .allocExhausted)
  | some (sn, alloc') =>
      let st' : MasterState := { st with alloc := alloc' }
      if nodeIP = "" ∨ nodeIP = "127.0.0.1" then
        (st', some .invalidNodeIP)
      else
        ({ st' with reg := Registry.createSubnet st'.reg nodeName ⟨nodeIP, sn⟩ }, none)

/-- `deleteNode` (subnets.go lines 97-110) over the parsed-CIDR master model: look up
the node's subnet, release its network, then delete the registry record; a failed
lookup propagates the error with no release and no delete. See `deleteNodeS` for the
string-level version including the parse-failure path. -/
def MasterState.deleteNode (st : MasterState) (nodeName : String) :
    MasterState × Option SdnErr :=
  match Registry.getSubnet st.reg nodeName with
  | none => (st, some .noSubnet)
  | some sub =>
      ({ alloc := st.alloc.releaseNetwork sub.SubnetCIDR,
         reg := Registry.deleteSubnet st.reg nodeName }, none)

/-- The `Added` branch of `watchNodes` (subnets.go lines 181-202). `getFails`,
`deleteFails` and `createFails` inject transient failures of the corresponding
registry calls (in Go any `err != nil`); the reliable-registry loop passes all three
as `false`. Errors are logged and the loop continues, so only the next state is
returned. -/
def MasterState.handleAdded (st : MasterState) (nodeName nodeIP : String)
    (getFails deleteFails createFails : Bool) : MasterState :=
  match (if getFails then none else Registry.getSubnet st.reg nodeName) with
  | none => (st.addNode nodeName nodeIP).1
  | some sub =>
      if sub.NodeIP ≠ nodeIP then
        if deleteFails then st
        else
          if createFails then { st with reg := Registry.deleteSubnet st.reg nodeName }
          else
            { st with
              reg := Registry.createSubnet (Registry.deleteSubnet st.reg nodeName)
                nodeName { sub with NodeIP := nodeIP } }
      else st

/-- One iteration of the `watchNodes` event loop (subnets.go lines 179-205) with a
reliable registry. -/
def MasterState.handleNodeEvent (st : MasterState) (ev : NodeEvent) : MasterState :=
  match ev.kind with
  | .Added => st.handleAdded ev.node.Name ev.node.IP false false false
  | .Deleted => (st.deleteNode ev.node.Name).1

/-- The `watchNodes` loop run over a list of node events. -/
def MasterState.processEvents (st : MasterState) (evs : List NodeEvent) : MasterState :=
  evs.foldl MasterState.handleNodeEvent st

/-- `serveExistingNodes` (subnets.go lines 59-72) with `failGet` injecting transient
`GetSubnet` failures: in Go the branch condition is `err == nil`, which a transient
registry failure falsifies exactly like the not-found error. -/
def MasterState.serveExistingNodesO (failGet : String → Bool) :
    MasterState → List Node → MasterState × Option SdnErr
  | st, [] => (st, none)
  | st, node :: rest =>
      if !failGet node.Name && (Registry.getSubnet st.reg node.Name).isSome then
        MasterState.serveExistingNodesO failGet st rest
      else
        match st.addNode node.Name node.IP with
        | (st', some e) => (st', some e)
        | (st', none) => MasterState.serveExistingNodesO failGet st' rest

/-- `serveExistingNodes` with a reliable registry. -/
def MasterState.serveExistingNodes (st : MasterState) (nodes : List Node) :
    MasterState × Option SdnErr :=
  MasterState.serveExistingNodesO (fun _ => false) st nodes

/-- Retry budget of `initSelfSubnet` (subnets.go line 151): `retries := 20`. -/
def selfSubnetRetries : Nat := 20

/-- Retry spacing of `initSelfSubnet` (subnets.go line 152) in milliseconds:
`retryInterval := 500 * time.Millisecond`. -/
def selfSubnetRetryIntervalMs : Nat := 500

/-- The retry loop of `initSelfSubnet` (subnets.go lines 157-165): `lookup i` is the
result of the i-th `GetSubnet(hostName)` call (`none` models `err != nil`). Arguments
are the remaining budget and the index of the next attempt; the result is the subnet
found, if any, together with the total number of lookup attempts performed. -/
def pollSelfSubnet (lookup : Nat → Option Subnet) : Nat → Nat → Option Subnet × Nat
  | 0, i => (none, i)
  | k + 1, i =>
      match lookup i with
      | some s => (some s, i + 1)
      | none => pollSelfSubnet lookup k (i + 1)

/-- `initSelfSubnet` (subnets.go lines 149-171): `some s` means the loop broke on a
successful lookup and recorded `s` as `oc.localSubnet`; `none` means the budget was
exhausted and the fatal error returned. -/
def initSelfSubnet (lookup : Nat → Option Subnet) : Option Subnet × Nat :=
  pollSelfSubnet lookup selfSubnetRetries 0

/-- Recursive splitter over character lists (the model's replacement for Go string
splitting; defined structurally so concrete inputs evaluate by `decide`). -/
def splitOnChar (sep : Char) : List Char → List (List Char)
  | [] => [[]]
  | c :: rest =>
      match splitOnChar sep rest with
      | [] => if c = sep then [[], []] else [[c]]
      | g :: gs => if c = sep then [] :: g :: gs else (c :: g) :: gs

/-- Decimal digit value of a character, if it is a digit. -/
def digitVal (c : Char) : Option Nat :=
  if '0' ≤ c ∧ c ≤ '9' then some (c.toNat - 48) else none

/-- Parse a non-empty all-digit character list as a decimal number. -/
def parseNatChars (cs : List Char) : Option Nat :=
  match cs with
  | [] => none
  | _ =>
      cs.foldl
        (fun acc c =>
          match acc, digitVal c with
          | some n, some d => some (n * 10 + d)
          | _, _ => none)
        (some 0)

/-- Parse one dotted-quad octet (0-255). -/
def parseOctetChars (cs : List Char) : Option Nat :=
  match parseNatChars cs with
  | some n => if n ≤ 255 then some n else none
  | none => none

/-- Parse a dotted-quad IPv4 address into its 32-bit value. -/
def parseIPv4Chars (cs : List Char) : Option Nat :=
  match (splitOnChar '.' cs).map parseOctetChars with
  | [some a, some b, some c, some d] => some (((a * 256 + b) * 256 + c) * 256 + d)
  | _ => none

/-- Modelled from Go's `net.ParseCIDR` (standard library, external): parse
`"a.b.c.d/len"` and mask the address down to the network base, or fail. -/
def parseCIDR (s : String) : Option Cidr :=
  match splitOnChar '/' s.toList with
  | [ipCs, lenCs] =>
      match parseIPv4Chars ipCs, parseNatChars lenCs with
      | some addr, some len =>
          if len ≤ 32 then some ⟨addr / 2 ^ (32 - len) * 2 ^ (32 - len), len⟩ else none
      | _, _ => none
  | _ => none

/-- The registry's subnet table at the wire level: `api.Subnet` records with string
CIDRs, as stored by the external registry. -/
abbrev RegistryS := List (String × Subnet)

/-- Wire-level `GetSubnet`. -/
def RegistryS.getSubnet (reg : RegistryS) (name : String) : Option Subnet :=
  (reg.find? fun p => p.1 == name).map Prod.snd

/-- Wire-level `DeleteSubnet`. -/
def RegistryS.deleteSubnet (reg : RegistryS) (name : String) : RegistryS :=
  reg.eraseP fun p => p.1 == name

/-- `deleteNode` (subnets.go lines 97-110) at the string level: `GetSubnet`,
`net.ParseCIDR`, `ReleaseNetwork`, `DeleteSubnet`, in source order, propagating
lookup and parse errors before anything is released or deleted. -/
def deleteNodeS (alloc : SubnetAllocator) (reg : RegistryS) (nodeName : String) :
    (SubnetAllocator × RegistryS) × Option SdnErr :=
  match RegistryS.getSubnet reg nodeName with
  | none => ((alloc, reg), some .noSubnet)
  | some sub =>
      match parseCIDR sub.SubnetCIDR with
      | none => ((alloc, reg), some .parseFailed)
      | some ipnet =>
          ((alloc.releaseNetwork ipnet, RegistryS.deleteSubnet reg nodeName), none)

/-- A call into the forwarding programmer (the external FlowController), recorded as
data. -/
inductive OFOp
  | add (peerIP subnetCIDR localIP : String)
  | del (peerIP localIP : String)
deriving DecidableEq, Repr

/-- The initial sweep of `subnetStartNode` (subnets.go lines 142-144): one
`AddOFRules(s.NodeIP, s.SubnetCIDR, oc.localIP)` call per subnet in the snapshot. -/
def nodeSweepOps (localIP : String) (subnets : List Subnet) : List OFOp :=
  subnets.map fun s => .add s.NodeIP s.SubnetCIDR localIP

/-- One subnet event of the `watchSubnets` loop (subnets.go lines 220-228): the
forwarding calls it issues. -/
def handleSubnetEvent (localIP : String) (ev : SubnetEvent) : List OFOp :=
  match ev.kind with
  | .Added => [.add ev.subnet.NodeIP ev.subnet.SubnetCIDR localIP]
  | .Deleted => [.del ev.subnet.NodeIP localIP]

/-- `watchSubnets` event handling as a transition on the list of issued forwarding
calls. -/
def nodeLoopStep (localIP : String) (ops : List OFOp) (ev : SubnetEvent) : List OFOp :=
  ops ++ handleSubnetEvent localIP ev

/-- The forwarding calls issued after the node sweep plus a list of live events. -/
def nodeRunOps (localIP : String) (subnets : List Subnet) (evs : List SubnetEvent) :
    List OFOp :=
  evs.foldl (nodeLoopStep localIP) (nodeSweepOps localIP subnets)

/-- One input to a watch loop's `select` (subnets.go lines 177-211 and 218-233):
either the next domain event or the shutdown signal on `oc.sig`. -/
inductive LoopInput (E : Type)
  | ev (e : E)
  | sig

/-- The `select` loop shared by `watchNodes` and `watchSubnets`: handle events until
the shutdown signal arrives, then send a stop request to the underlying watch (the
returned Bool) and return, leaving every later input unprocessed. -/
def runWatchLoop {S E : Type} (handle : S → E → S) : S → List (LoopInput E) → S × Bool
  | st, [] => (st, false)
  | st, .ev e :: rest => runWatchLoop handle (handle st e) rest
  | st, .sig :: _ => (st, true)

/-- The master invariant relating allocator and registry: the exclusion set is
pairwise non-overlapping, registry keys are unique, every live CIDR is in the
exclusion set, and live CIDRs are pairwise non-overlapping. -/
structure Inv (st : MasterState) : Prop where
  allocPW : st.alloc.allocated.Pairwise fun a b => Cidr.overlaps a b = false
  regKeys : (st.reg.map Prod.fst).Nodup
  regSub : ∀ p ∈ st.reg, p.2.SubnetCIDR ∈ st.alloc.allocated
  regPW : st.reg.Pairwise fun p q => Cidr.overlaps p.2.SubnetCIDR q.2.SubnetCIDR = false

/-- Concrete cluster network 10.1.0.0/16 used by the example evaluations. -/
def wNetwork : Cidr := ⟨167837696, 16⟩

/-- Concrete host subnet 10.1.0.0/24. -/
def wSub0 : Cidr := ⟨167837696, 24⟩

/-- Concrete host subnet 10.1.1.0/24. -/
def wSub1 : Cidr := ⟨167837952, 24⟩

/-- Concrete host subnet 10.1.2.0/24. -/
def wSub2 : Cidr := ⟨167838208, 24⟩

/-- Concrete allocator over 10.1.0.0/16 with a given exclusion set. -/
def wAlloc (l : List Cidr) : SubnetAllocator := ⟨wNetwork, 24, l⟩

/-- Concrete parsed-registry holding one record for node n0. -/
def wReg0 : Registry := [("n0", ⟨"1.1.1.1", wSub1⟩)]

/-- Concrete wire-level registry with one unparseable and one parseable record. -/
def wRegS : RegistryS :=
  [("a", ⟨"1.1.1.1", "garbage"⟩), ("b", ⟨"2.2.2.2", "10.1.2.0/24"⟩)]

/-- Every CIDR block contains at least one address. -/
theorem Cidr.size_pos (c : Cidr) : 0 < c.size := Nat.two_pow_pos _

/-- A block overlaps itself. -/
theorem Cidr.overlaps_self (c : Cidr) : Cidr.overlaps c c = true := by
  have h := Nat.two_pow_pos (32 - c.len)
  simp only [Cidr.overlaps, Cidr.size, Bool.and_eq_true, decide_eq_true_eq]
  omega

/-- Overlap is symmetric. -/
theorem Cidr.overlaps_comm (c d : Cidr) : Cidr.overlaps c d = Cidr.overlaps d c := by
  simp only [Cidr.overlaps]
  exact Bool.and_comm _ _

/-- Non-overlapping blocks are distinct. -/
theorem Cidr.ne_of_overlaps_eq_false {c d : Cidr} (h : Cidr.overlaps c d = false) :
    c ≠ d := by
  intro he
  subst he
  rw [Cidr.overlaps_self] at h
  cases h

/-- What a successful `GetNetwork` guarantees: the issued block overlaps nothing in
the old exclusion set, and the new exclusion set is the old one plus the block. -/
theorem SubnetAllocator.getNetwork_eq_some {a : SubnetAllocator} {c : Cidr}
    {a' : SubnetAllocator} (h : a.getNetwork = some (c, a')) :
    (∀ d ∈ a.allocated, Cidr.overlaps c d = false)
      ∧ a'.allocated = c :: a.allocated
      ∧ a'.network = a.network ∧ a'.subnetLen = a.subnetLen := by
  unfold SubnetAllocator.getNetwork at h
  cases hf : (List.range (2 ^ (a.subnetLen - a.network.len))).find?
      (fun i => a.allocated.all fun d => !(a.candidate i).overlaps d) with
  | none => rw [hf] at h; cases h
  | some i =>
      rw [hf] at h
      rw [Option.some.injEq, Prod.mk.injEq] at h
      obtain ⟨hc, ha⟩ := h
      have hp := List.find?_some hf
      rw [List.all_eq_true] at hp
      refine ⟨?_, ?_, ?_, ?_⟩
      · intro d hd
        have := hp d hd
        rw [Bool.not_eq_true'] at this
        rw [hc] at this
        exact this
      · rw [← ha, ← hc]
      · rw [← ha]
      · rw [← ha]

/-- A found registry record is a member of the table. -/
theorem Registry.getSubnet_mem {reg : Registry} {n : String} {s : SubnetM}
    (h : Registry.getSubnet reg n = some s) : (n, s) ∈ reg := by
  unfold Registry.getSubnet at h
  cases hf : reg.find? (fun p => p.1 == n) with
  | none => rw [hf] at h; cases h
  | some pr =>
      rw [hf] at h
      simp only [Option.map_some', Option.some.injEq] at h
      have hmem := List.mem_of_find?_eq_some hf
      have hpred := List.find?_some hf
      have hkey : pr.1 = n := by simpa using hpred
      cases pr with
      | mk k v =>
          simp only at h hkey
          rw [hkey, h] at hmem
          exact hmem

/-- Lookup failure means no record carries the key. -/
theorem Registry.getSubnet_eq_none {reg : Registry} {n : String} :
    Registry.getSubnet reg n = none ↔ ∀ p ∈ reg, p.1 ≠ n := by
  unfold Registry.getSubnet
  simp [List.find?_eq_none]

/-- Deleting an absent key leaves the table unchanged. -/
theorem Registry.deleteSubnet_of_none {reg : Registry} {n : String}
    (h : Registry.getSubnet reg n = none) : Registry.deleteSubnet reg n = reg := by
  unfold Registry.deleteSubnet
  apply List.eraseP_of_forall_not
  intro p hp
  have := (Registry.getSubnet_eq_none.mp h) p hp
  simp [this]

/-- Deletion only removes records. -/
theorem Registry.mem_deleteSubnet {reg : Registry} {n : String} {p : String × SubnetM}
    (h : p ∈ Registry.deleteSubnet reg n) : p ∈ reg :=
  List.mem_of_mem_eraseP h

/-- The deleted table is a sublist of the original. -/
theorem Registry.deleteSubnet_sublist (reg : Registry) (n : String) :
    List.Sublist (Registry.deleteSubnet reg n) reg :=
  List.eraseP_sublist reg

/-- Deletion preserves key uniqueness. -/
theorem Registry.keys_nodup_deleteSubnet {reg : Registry} {n : String}
    (h : (reg.map Prod.fst).Nodup) :
    ((Registry.deleteSubnet reg n).map Prod.fst).Nodup :=
  List.Nodup.sublist (List.Sublist.map Prod.fst (List.eraseP_sublist reg)) h

/-- With unique keys, the deleted key is gone from the table. -/
theorem Registry.not_mem_keys_deleteSubnet {reg : Registry} {n : String}
    (h : (reg.map Prod.fst).Nodup) :
    n ∉ (Registry.deleteSubnet reg n).map Prod.fst := by
  induction reg with
  | nil => simp [Registry.deleteSubnet]
  | cons p rest ih =>
      rw [List.map_cons, List.nodup_cons] at h
      obtain ⟨hp, hrest⟩ := h
      unfold Registry.deleteSubnet at *
      rw [List.eraseP_cons]
      by_cases hc : p.1 = n
      · simp only [hc, beq_self_eq_true, cond_true]
        rw [← hc]
        exact hp
      · have : (p.1 == n) = false := by simpa using hc
        simp only [this, cond_false, List.map_cons, List.mem_cons]
        rintro (he | hm)
        · exact hc he.symm
        · exact ih hrest hm

/-- Deleting one key does not disturb lookups of other keys. -/
theorem Registry.getSubnet_deleteSubnet_ne (reg : Registry) {n m : String}
    (h : m ≠ n) :
    Registry.getSubnet (Registry.deleteSubnet reg n) m = Registry.getSubnet reg m := by
  induction reg with
  | nil => rfl
  | cons p rest ih =>
      unfold Registry.deleteSubnet at *
      rw [List.eraseP_cons]
      by_cases hc : p.1 = n
      · have hb : (p.1 == n) = true := by simpa using hc
        have hm : (p.1 == m) = false := by
          have : p.1 ≠ m := by rw [hc]; exact fun he => h he.symm
          simpa using this
        simp only [hb, cond_true]
        unfold Registry.getSubnet
        rw [List.find?_cons_of_neg _ (by simp [hm])]
      · have hb : (p.1 == n) = false := by simpa using hc
        simp only [hb, cond_false]
        by_cases hm : p.1 = m
        · unfold Registry.getSubnet
          rw [List.find?_cons_of_pos _ (by simp [hm]), List.find?_cons_of_pos _ (by simp [hm])]
        · unfold Registry.getSubnet at *
          rw [List.find?_cons_of_neg _ (by simp [hm]), List.find?_cons_of_neg _ (by simp [hm])]
          exact ih

/-- Looking up the key just written returns the record just written. -/
theorem Registry.getSubnet_createSubnet_self (reg : Registry) (n : String) (s : SubnetM) :
    Registry.getSubnet (Registry.createSubnet reg n s) n = some s := by
  unfold Registry.getSubnet Registry.createSubnet
  rw [List.find?_cons_of_pos _ (by simp)]
  rfl

/-- Writing one key does not disturb lookups of other keys. -/
theorem Registry.getSubnet_createSubnet_ne (reg : Registry) {n m : String} (s : SubnetM)
    (h : m ≠ n) :
    Registry.getSubnet (Registry.createSubnet reg n s) m = Registry.getSubnet reg m := by
  unfold Registry.createSubnet
  have hb : (n == m) = false := by simpa using fun he => h he.symm
  unfold Registry.getSubnet
  rw [List.find?_cons_of_neg _ (by simp [hb])]
  exact Registry.getSubnet_deleteSubnet_ne reg h

/-- A key absent from the key list cannot be found. -/
theorem Registry.getSubnet_eq_none_of_not_mem_keys {reg : Registry} {n : String}
    (h : n ∉ reg.map Prod.fst) : Registry.getSubnet reg n = none :=
  Registry.getSubnet_eq_none.mpr fun p hp he => h (he ▸ List.mem_map_of_mem Prod.fst hp)

/-- With unique keys, deleting the same key twice is the same as deleting it once. -/
theorem Registry.deleteSubnet_deleteSubnet {reg : Registry} {n : String}
    (h : (reg.map Prod.fst).Nodup) :
    Registry.deleteSubnet (Registry.deleteSubnet reg n) n = Registry.deleteSubnet reg n :=
  Registry.deleteSubnet_of_none
    (Registry.getSubnet_eq_none_of_not_mem_keys (Registry.not_mem_keys_deleteSubnet h))

/-- The registry pairwise relation is symmetric. -/
theorem regRel_symm :
    Symmetric fun p q : String × SubnetM =>
      Cidr.overlaps p.2.SubnetCIDR q.2.SubnetCIDR = false := by
  intro p q h
  rw [Cidr.overlaps_comm]
  exact h

/-- `addNode` preserves the master invariant, on every path. -/
theorem Inv.addNode {st : MasterState} (h : Inv st) (n ip : String) :
    Inv (st.addNode n ip).1 := by
  unfold MasterState.addNode
  cases hg : st.alloc.getNetwork with
  | none => exact h
  | some ca =>
      obtain ⟨c, alloc'⟩ := ca
      obtain ⟨hfresh, hall, hnet, hlen⟩ := SubnetAllocator.getNetwork_eq_some hg
      have hallocPW : alloc'.allocated.Pairwise fun a b => Cidr.overlaps a b = false := by
        rw [hall]
        exact List.pairwise_cons.mpr ⟨hfresh, h.allocPW⟩
      by_cases hip : ip = "" ∨ ip = "127.0.0.1"
      · simp only [hip, if_true]
        exact ⟨hallocPW, h.regKeys, fun p hp => hall ▸ List.mem_cons_of_mem _ (h.regSub p hp),
          h.regPW⟩
      · simp only [hip, if_false]
        refine ⟨hallocPW, ?_, ?_, ?_⟩
        · unfold Registry.createSubnet
          rw [List.map_cons, List.nodup_cons]
          exact ⟨Registry.not_mem_keys_deleteSubnet h.regKeys,
            Registry.keys_nodup_deleteSubnet h.regKeys⟩
        · intro p hp
          unfold Registry.createSubnet at hp
          rw [List.mem_cons] at hp
          rcases hp with he | hm
          · subst he
            rw [hall]
            exact List.mem_cons_self _ _
          · rw [hall]
            exact List.mem_cons_of_mem _ (h.regSub p (Registry.mem_deleteSubnet hm))
        · unfold Registry.createSubnet
          refine List.pairwise_cons.mpr
            ⟨?_, h.regPW.sublist (Registry.deleteSubnet_sublist _ _)⟩
          intro q hq
          exact hfresh _ (h.regSub q (Registry.mem_deleteSubnet hq))

/-- `deleteNode` preserves the master invariant, on every path. -/
theorem Inv.deleteNode {st : MasterState} (h : Inv st) (n : String) :
    Inv (st.deleteNode n).1 := by
  unfold MasterState.deleteNode
  cases hg : Registry.getSubnet st.reg n with
  | none => exact h
  | some sub =>
      have hmem : (n, sub) ∈ st.reg := Registry.getSubnet_mem hg
      refine ⟨?_, Registry.keys_nodup_deleteSubnet h.regKeys, ?_,
        h.regPW.sublist (Registry.deleteSubnet_sublist _ _)⟩
      · exact h.allocPW.sublist (List.erase_sublist _ _)
      · intro p hp
        have hpreg := Registry.mem_deleteSubnet hp
        have hpkey : p.1 ≠ n := by
          intro he
          exact Registry.not_mem_keys_deleteSubnet h.regKeys
            (he ▸ List.mem_map_of_mem Prod.fst hp)
        have hne : p ≠ (n, sub) := fun he => hpkey (by rw [he])
        have hno : Cidr.overlaps p.2.SubnetCIDR sub.SubnetCIDR = false :=
          h.regPW.forall regRel_symm hpreg hmem hne
        have hcne : p.2.SubnetCIDR ≠ sub.SubnetCIDR := Cidr.ne_of_overlaps_eq_false hno
        unfold SubnetAllocator.releaseNetwork
        exact (List.mem_erase_of_ne hcne).mpr (h.regSub p hpreg)

/-- The `Added` handler preserves the master invariant for every combination of
injected registry failures. -/
theorem Inv.handleAdded {st : MasterState} (h : Inv st) (n ip : String)
    (gf df cf : Bool) : Inv (st.handleAdded n ip gf df cf) := by
  unfold MasterState.handleAdded
  cases hres : (if gf then none else Registry.getSubnet st.reg n) with
  | none => exact h.addNode n ip
  | some sub =>
      have hg : Registry.getSubnet st.reg n = some sub := by
        cases gf with
        | true => cases hres
        | false => exact hres
      have hmem : (n, sub) ∈ st.reg := Registry.getSubnet_mem hg
      dsimp only
      by_cases hip : sub.NodeIP ≠ ip
      · rw [if_pos hip]
        cases df with
        | true => rw [if_pos rfl]; exact h
        | false =>
            rw [if_neg (by simp)]
            cases cf with
            | true =>
                rw [if_pos rfl]
                exact ⟨h.allocPW, Registry.keys_nodup_deleteSubnet h.regKeys,
                  fun p hp => h.regSub p (Registry.mem_deleteSubnet hp),
                  h.regPW.sublist (Registry.deleteSubnet_sublist _ _)⟩
            | false =>
                rw [if_neg (by simp)]
                unfold Registry.createSubnet
                rw [Registry.deleteSubnet_deleteSubnet h.regKeys]
                refine ⟨h.allocPW, ?_, ?_, ?_⟩
                · rw [List.map_cons, List.nodup_cons]
                  exact ⟨Registry.not_mem_keys_deleteSubnet h.regKeys,
                    Registry.keys_nodup_deleteSubnet h.regKeys⟩
                · intro p hp
                  rw [List.mem_cons] at hp
                  rcases hp with he | hm
                  · subst he
                    exact h.regSub (n, sub) hmem
                  · exact h.regSub p (Registry.mem_deleteSubnet hm)
                · refine List.pairwise_cons.mpr
                    ⟨?_, h.regPW.sublist (Registry.deleteSubnet_sublist _ _)⟩
                  intro q hq
                  have hqreg := Registry.mem_deleteSubnet hq
                  have hqkey : q.1 ≠ n := by
                    intro he
                    exact Registry.not_mem_keys_deleteSubnet h.regKeys
                      (he ▸ List.mem_map_of_mem Prod.fst hq)
                  have hne : (n, sub) ≠ q := fun he => hqkey (by rw [← he])
                  exact h.regPW.forall regRel_symm hmem hqreg hne
      · rw [if_neg hip]
        exact h

/-- One node event preserves the master invariant. -/
theorem Inv.handleNodeEvent {st : MasterState} (h : Inv st) (ev : NodeEvent) :
    Inv (st.handleNodeEvent ev) := by
  unfold MasterState.handleNodeEvent
  cases ev.kind with
  | Added => exact h.handleAdded _ _ _ _ _
  | Deleted => exact h.deleteNode _

/-- Any sequence of node events preserves the master invariant. -/
theorem Inv.processEvents {st : MasterState} (h : Inv st) (evs : List NodeEvent) :
    Inv (st.processEvents evs) := by
  induction evs generalizing st with
  | nil => exact h
  | cons ev rest ih => exact ih (h.handleNodeEvent ev)

/-- The initial sweep preserves the master invariant for every failure oracle. -/
theorem Inv.serveExistingNodesO {st : MasterState} (h : Inv st)
    (failGet : String → Bool) (nodes : List Node) :
    Inv (MasterState.serveExistingNodesO failGet st nodes).1 := by
  induction nodes generalizing st with
  | nil => exact h
  | cons node rest ih =>
      unfold MasterState.serveExistingNodesO
      by_cases hc : (!failGet node.Name && (Registry.getSubnet st.reg node.Name).isSome) = true
      · simp only [hc, if_true]
        exact ih h
      · simp only [hc, if_false]
        cases ha : st.addNode node.Name node.IP with
        | mk st' e =>
            have h' : Inv st' := by
              have := h.addNode node.Name node.IP
              rw [ha] at this
              exact this
            cases e with
            | none => exact ih h'
            | some err => exact h'

/-- The initial sweep with a reliable registry preserves the master invariant. -/
theorem Inv.serveExistingNodes {st : MasterState} (h : Inv st) (nodes : List Node) :
    Inv (st.serveExistingNodes nodes).1 :=
  h.serveExistingNodesO _ nodes

/-- The Boolean pairwise-disjointness check implies the pairwise predicate. -/
theorem pairwiseDisjoint_pairwise {l : List Cidr} (h : pairwiseDisjoint l = true) :
    l.Pairwise fun a b => Cidr.overlaps a b = false := by
  induction l with
  | nil => exact List.Pairwise.nil
  | cons c rest ih =>
      unfold pairwiseDisjoint at h
      rw [Bool.and_eq_true] at h
      refine List.pairwise_cons.mpr ⟨?_, ih h.2⟩
      intro d hd
      have := (List.all_eq_true.mp h.1) d hd
      rw [Bool.not_eq_true'] at this
      exact this

/-- What a successful allocator construction guarantees. -/
theorem newSubnetAllocator_eq_some {network : Cidr} {subnetLen : Nat}
    {inUse : List Cidr} {a : SubnetAllocator}
    (h : newSubnetAllocator network subnetLen inUse = some a) :
    a = ⟨network, subnetLen, inUse⟩ ∧ pairwiseDisjoint inUse = true := by
  unfold newSubnetAllocator at h
  split at h
  next hcond =>
    rw [Option.some.injEq] at h
    exact ⟨h.symm, hcond.2.2.1⟩
  next => cases h

/-- Seeding the allocator from the registry's own CIDRs establishes the master
invariant. -/
theorem Inv.seed {network : Cidr} {subnetLen : Nat} {reg0 : Registry}
    {alloc0 : SubnetAllocator}
    (hseed : newSubnetAllocator network subnetLen
      (reg0.map fun p => p.2.SubnetCIDR) = some alloc0)
    (hkeys : (reg0.map Prod.fst).Nodup) :
    Inv ⟨alloc0, reg0⟩ := by
  obtain ⟨ha, hpd⟩ := newSubnetAllocator_eq_some hseed
  subst ha
  refine ⟨pairwiseDisjoint_pairwise hpd, hkeys, ?_, ?_⟩
  · intro p hp
    exact List.mem_map_of_mem _ hp
  · have hpw := pairwiseDisjoint_pairwise hpd
    rw [List.pairwise_map] at hpw
    exact hpw

/-- A freshly issued block is not already in the exclusion set. -/
theorem not_mem_of_fresh {c : Cidr} {l : List Cidr}
    (h : ∀ d ∈ l, Cidr.overlaps c d = false) : c ∉ l := by
  intro hc
  have hcc := h c hc
  rw [Cidr.overlaps_self] at hcc
  cases hcc

/-- The allocator component of `addNode` after a successful `GetNetwork`, on every
path: the mutation survives even when the node IP is rejected afterwards. -/
theorem addNode_alloc {st : MasterState} (n ip : String) {c : Cidr}
    {a' : SubnetAllocator} (hnet : st.alloc.getNetwork = some (c, a')) :
    (st.addNode n ip).1.alloc = a' := by
  unfold MasterState.addNode
  rw [hnet]
  dsimp only
  by_cases hip : ip = "" ∨ ip = "127.0.0.1"
  · rw [if_pos hip]
  · rw [if_neg hip]

/-- The two possible outcomes of `addNode`: an error with the registry untouched, or
success with the new record prepended. -/
theorem addNode_spec (st : MasterState) (n ip : String) :
    ((st.addNode n ip).2.isSome = true ∧ (st.addNode n ip).1.reg = st.reg)
    ∨ ((st.addNode n ip).2 = none
        ∧ ∃ c, (st.addNode n ip).1.reg
            = (n, ⟨ip, c⟩) :: Registry.deleteSubnet st.reg n) := by
  unfold MasterState.addNode
  cases hg : st.alloc.getNetwork with
  | none => exact Or.inl ⟨rfl, rfl⟩
  | some ca =>
      obtain ⟨c, a'⟩ := ca
      dsimp only
      by_cases hip : ip = "" ∨ ip = "127.0.0.1"
      · rw [if_pos hip]
        exact Or.inl ⟨rfl, rfl⟩
      · rw [if_neg hip]
        exact Or.inr ⟨rfl, c, rfl⟩

/-- An `Added` event for a node that already holds a record with the event's IP is a
no-op. -/
theorem handleNodeEvent_same_ip_noop (st : MasterState) {n ip : String} {sub : SubnetM}
    (hg : Registry.getSubnet st.reg n = some sub) (hip : sub.NodeIP = ip) :
    st.handleNodeEvent ⟨EventType.Added, ⟨n, ip⟩⟩ = st := by
  unfold MasterState.handleNodeEvent MasterState.handleAdded
  rw [hg, if_neg (by decide : ¬(false = true))]
  dsimp only
  rw [if_neg fun hne : sub.NodeIP ≠ ip => hne hip]

/-- If every node of the sweep already holds a record, the sweep changes nothing and
reports no error. -/
theorem serveExistingNodes_covered (st : MasterState) (nodes : List Node)
    (h : ∀ node ∈ nodes, (Registry.getSubnet st.reg node.Name).isSome = true) :
    st.serveExistingNodes nodes = (st, none) := by
  unfold MasterState.serveExistingNodes
  induction nodes with
  | nil => rfl
  | cons node rest ih =>
      unfold MasterState.serveExistingNodesO
      have hs := h node (List.mem_cons_self _ _)
      rw [if_pos (by simp [hs])]
      exact ih fun nd hm => h nd (List.mem_cons_of_mem _ hm)

/-- The sweep never removes or rewrites an existing record. -/
theorem serveExistingNodes_keeps (st : MasterState) (nodes : List Node) :
    ∀ p ∈ st.reg, p ∈ (st.serveExistingNodes nodes).1.reg := by
  unfold MasterState.serveExistingNodes
  induction nodes generalizing st with
  | nil => intro p hp; exact hp
  | cons node rest ih =>
      intro p hp
      unfold MasterState.serveExistingNodesO
      by_cases hc : (!(fun _ : String => false) node.Name
          && (Registry.getSubnet st.reg node.Name).isSome) = true
      · rw [if_pos hc]
        exact ih st p hp
      · rw [if_neg hc]
        have habs : Registry.getSubnet st.reg node.Name = none := by
          rcases ho : Registry.getSubnet st.reg node.Name with _ | s
          · rfl
          · exact absurd (by simp [ho]) hc
        cases ha : st.addNode node.Name node.IP with
        | mk st' e =>
            have hspec := addNode_spec st node.Name node.IP
            rw [ha] at hspec
            cases e with
            | some err =>
                dsimp only
                rcases hspec with ⟨_, hreg⟩ | ⟨hnone, _⟩
                · rw [hreg]; exact hp
                · cases hnone
            | none =>
                dsimp only
                rcases hspec with ⟨hsome, _⟩ | ⟨_, c, hreg⟩
                · cases hsome
                · refine ih st' p ?_
                  rw [hreg, Registry.deleteSubnet_of_none habs]
                  exact List.mem_cons_of_mem _ hp

/-- Every record present after the sweep either predates it or belongs to a sweep
node that had no record when the sweep started. -/
theorem serveExistingNodes_new_records (st : MasterState) (nodes : List Node) :
    ∀ q ∈ (st.serveExistingNodes nodes).1.reg,
      q ∈ st.reg ∨ ∃ node, node ∈ nodes ∧ q.1 = node.Name
        ∧ Registry.getSubnet st.reg node.Name = none := by
  unfold MasterState.serveExistingNodes
  induction nodes generalizing st with
  | nil => intro q hq; exact Or.inl hq
  | cons node rest ih =>
      intro q hq
      rw [show MasterState.serveExistingNodesO (fun _ => false) st (node :: rest)
          = if (!(fun _ : String => false) node.Name
              && (Registry.getSubnet st.reg node.Name).isSome) = true
            then MasterState.serveExistingNodesO (fun _ => false) st rest
            else match st.addNode node.Name node.IP with
              | (st', some e) => (st', some e)
              | (st', none) => MasterState.serveExistingNodesO (fun _ => false) st' rest
          from rfl] at hq
      by_cases hc : (!(fun _ : String => false) node.Name
          && (Registry.getSubnet st.reg node.Name).isSome) = true
      · rw [if_pos hc] at hq
        rcases ih st q hq with hold | ⟨nd, hm, hk, hn⟩
        · exact Or.inl hold
        · exact Or.inr ⟨nd, List.mem_cons_of_mem _ hm, hk, hn⟩
      · rw [if_neg hc] at hq
        have habs : Registry.getSubnet st.reg node.Name = none := by
          rcases ho : Registry.getSubnet st.reg node.Name with _ | s
          · rfl
          · exact absurd (by simp [ho]) hc
        cases ha : st.addNode node.Name node.IP with
        | mk st' e =>
            rw [ha] at hq
            have hspec := addNode_spec st node.Name node.IP
            rw [ha] at hspec
            cases e with
            | some err =>
                dsimp only at hq
                rcases hspec with ⟨_, hreg⟩ | ⟨hnone, _⟩
                · rw [hreg] at hq
                  exact Or.inl hq
                · cases hnone
            | none =>
                dsimp only at hq
                rcases hspec with ⟨hsome, _⟩ | ⟨_, c, hreg⟩
                · cases hsome
                · have hreg' : st'.reg = (node.Name, ⟨node.IP, c⟩) :: st.reg := by
                    rw [hreg, Registry.deleteSubnet_of_none habs]
                  rcases ih st' q hq with hold | ⟨nd, hm, hk, hn⟩
                  · rw [hreg'] at hold
                    rcases List.mem_cons.mp hold with he | hmem
                    · exact Or.inr ⟨node, List.mem_cons_self _ _, by rw [he], habs⟩
                    · exact Or.inl hmem
                  · refine Or.inr ⟨nd, List.mem_cons_of_mem _ hm, hk, ?_⟩
                    rw [Registry.getSubnet_eq_none] at hn ⊢
                    intro p hp
                    exact hn p (by rw [hreg']; exact List.mem_cons_of_mem _ hp)

/-- If every lookup fails, the poll loop performs every remaining attempt and
reports failure. -/
theorem pollSelfSubnet_all_fail (lookup : Nat → Option Subnet)
    (h : ∀ i, lookup i = none) :
    ∀ k i, pollSelfSubnet lookup k i = (none, i + k) := by
  intro k
  induction k with
  | zero => intro i; rfl
  | succ k ih =>
      intro i
      unfold pollSelfSubnet
      rw [h i]
      have harith : i + 1 + k = i + (k + 1) := by omega
      rw [ih (i + 1), harith]

/-- The poll loop stops at the first successful lookup and counts its attempts. -/
theorem pollSelfSubnet_first_success (lookup : Nat → Option Subnet) (s : Subnet) :
    ∀ (k i j : Nat), i ≤ j → j < i + k → lookup j = some s →
      (∀ m, i ≤ m → m < j → lookup m = none) →
      pollSelfSubnet lookup k i = (some s, j + 1) := by
  intro k
  induction k with
  | zero =>
      intro i j h1 h2 _ _
      exact absurd h2 (by omega)
  | succ k ih =>
      intro i j h1 h2 hj hbefore
      unfold pollSelfSubnet
      rcases Nat.eq_or_lt_of_le h1 with he | hlt
      · rw [← he] at hj
        rw [hj, he]
      · have hnone : lookup i = none := hbefore i (Nat.le_refl i) hlt
        rw [hnone]
        exact ih (i + 1) j hlt (by omega) hj fun m hm1 hm2 => hbefore m (by omega) hm2

/-- Folding the node-side loop step accumulates the per-event forwarding calls. -/
theorem foldl_nodeLoopStep (localIP : String) (evs : List SubnetEvent)
    (acc : List OFOp) :
    evs.foldl (nodeLoopStep localIP) acc
      = acc ++ evs.flatMap (handleSubnetEvent localIP) := by
  induction evs generalizing acc with
  | nil => simp
  | cons ev rest ih =>
      rw [List.foldl_cons, List.flatMap_cons, ih (nodeLoopStep localIP acc ev)]
      unfold nodeLoopStep
      rw [List.append_assoc]

/-- A watch loop processes exactly the events before the shutdown signal, then sends
the stop request; everything after the signal is ignored. -/
theorem runWatchLoop_events_then_sig {S E : Type} (handle : S → E → S) (st : S)
    (evs : List E) (post : List (LoopInput E)) :
    runWatchLoop handle st (evs.map LoopInput.ev ++ LoopInput.sig :: post)
      = (evs.foldl handle st, true) := by
  induction evs generalizing st with
  | nil => rfl
  | cons ev rest ih =>
      rw [List.map_cons, List.cons_append]
      unfold runWatchLoop
      exact ih (handle st ev)

/-- Claim C1 (amended): from any seeded start — the allocator's exclusion set is
reconstructed by replaying every existing Subnet's CIDR before anything is served —
and after the initial sweep and any sequence of Added/Deleted node events, the set
of live Subnet CIDRs is pairwise non-overlapping and contained in the allocator's
exclusion set. Since the event list is arbitrary, this holds at every point of the
run. The original claim's equality of registry and exclusion set fails: an Added
event with an invalid node IP takes a network from the pool that never reaches the
registry (see the counterexample). -/
theorem claim1_master_disjoint_and_subset (network : Cidr) (subnetLen : Nat)
    (reg0 : Registry) (alloc0 : SubnetAllocator) (nodes : List Node)
    (evs : List NodeEvent)
    (hseed : newSubnetAllocator network subnetLen
      (reg0.map fun p => p.2.SubnetCIDR) = some alloc0)
    (hkeys : (reg0.map Prod.fst).Nodup) :
    (MasterState.processEvents
        (MasterState.serveExistingNodes ⟨alloc0, reg0⟩ nodes).1 evs).reg.Pairwise
      (fun p q => Cidr.overlaps p.2.SubnetCIDR q.2.SubnetCIDR = false)
    ∧ ∀ p ∈ (MasterState.processEvents
          (MasterState.serveExistingNodes ⟨alloc0, reg0⟩ nodes).1 evs).reg,
        p.2.SubnetCIDR ∈ (MasterState.processEvents
          (MasterState.serveExistingNodes ⟨alloc0, reg0⟩ nodes).1 evs).alloc.allocated := by
  have h1 := ((Inv.seed hseed hkeys).serveExistingNodes nodes).processEvents evs
  exact ⟨h1.regPW, h1.regSub⟩

/-- Claim C1 counterexample: seed from an empty registry, then process one Added
event carrying the empty node IP. The registry stays empty, but the allocator's
exclusion set now holds 10.1.0.0/24 — the exclusion set does not equal the set of
live Subnet CIDRs. -/
theorem claim1_counterexample :
    newSubnetAllocator wNetwork 24 [] = some (wAlloc [])
    ∧ (MasterState.processEvents ⟨wAlloc [], []⟩
        [⟨EventType.Added, ⟨"n1", ""⟩⟩]).reg = []
    ∧ (MasterState.processEvents ⟨wAlloc [], []⟩
        [⟨EventType.Added, ⟨"n1", ""⟩⟩]).alloc.allocated = [wSub0] := by
  decide

/-- Claim C1 witness: the amended theorem applied to a concrete seeded state, sweep
node list and event list. -/
theorem claim1_witness :
    (newSubnetAllocator wNetwork 24 (wReg0.map fun p => p.2.SubnetCIDR)
        = some (wAlloc [wSub1])
      ∧ (wReg0.map Prod.fst).Nodup)
    ∧ (MasterState.processEvents
        (MasterState.serveExistingNodes ⟨wAlloc [wSub1], wReg0⟩
          [⟨"n0", "1.1.1.1"⟩, ⟨"n1", "2.2.2.2"⟩]).1
        [⟨EventType.Added, ⟨"n2", "3.3.3.3"⟩⟩,
         ⟨EventType.Deleted, ⟨"n1", "2.2.2.2"⟩⟩]).reg.Pairwise
      (fun p q => Cidr.overlaps p.2.SubnetCIDR q.2.SubnetCIDR = false)
    ∧ ∀ p ∈ (MasterState.processEvents
          (MasterState.serveExistingNodes ⟨wAlloc [wSub1], wReg0⟩
            [⟨"n0", "1.1.1.1"⟩, ⟨"n1", "2.2.2.2"⟩]).1
          [⟨EventType.Added, ⟨"n2", "3.3.3.3"⟩⟩,
           ⟨EventType.Deleted, ⟨"n1", "2.2.2.2"⟩⟩]).reg,
        p.2.SubnetCIDR ∈ (MasterState.processEvents
          (MasterState.serveExistingNodes ⟨wAlloc [wSub1], wReg0⟩
            [⟨"n0", "1.1.1.1"⟩, ⟨"n1", "2.2.2.2"⟩]).1
          [⟨EventType.Added, ⟨"n2", "3.3.3.3"⟩⟩,
           ⟨EventType.Deleted, ⟨"n1", "2.2.2.2"⟩⟩]).alloc.allocated := by
  have h := claim1_master_disjoint_and_subset wNetwork 24 wReg0 (wAlloc [wSub1])
    [⟨"n0", "1.1.1.1"⟩, ⟨"n1", "2.2.2.2"⟩]
    [⟨EventType.Added, ⟨"n2", "3.3.3.3"⟩⟩, ⟨EventType.Deleted, ⟨"n1", "2.2.2.2"⟩⟩]
    (by decide) (by decide)
  exact ⟨⟨by decide, by decide⟩, h.1, h.2⟩

/-- Claim C2 (amended): `addNode` with an empty or loopback node IP returns an error
and creates no registry record, but the allocator is not left unchanged: unless the
pool is already exhausted, `GetNetwork` was already called before the IP check, so a
fresh network is taken from the pool and never released. -/
theorem claim2_invalid_ip_rejected_but_leaks (st : MasterState) (n ip : String)
    (hip : ip = "" ∨ ip = "127.0.0.1") :
    (st.addNode n ip).2.isSome = true
    ∧ (st.addNode n ip).1.reg = st.reg
    ∧ ((st.alloc.getNetwork = none ∧ (st.addNode n ip).1.alloc = st.alloc)
      ∨ ∃ c, (st.addNode n ip).1.alloc.allocated = c :: st.alloc.allocated
          ∧ c ∉ st.alloc.allocated) := by
  unfold MasterState.addNode
  cases hg : st.alloc.getNetwork with
  | none => exact ⟨rfl, rfl, Or.inl ⟨rfl, rfl⟩⟩
  | some ca =>
      obtain ⟨c, a'⟩ := ca
      obtain ⟨hfresh, hall, _, _⟩ := SubnetAllocator.getNetwork_eq_some hg
      dsimp only
      rw [if_pos hip]
      exact ⟨rfl, rfl, Or.inr ⟨c, hall, not_mem_of_fresh hfresh⟩⟩

/-- Claim C2 counterexample: with pool capacity available, `addNode` on the empty IP
returns an error, yet the allocator state is mutated — a network was taken from the
pool, refuting "no network is taken from the allocator's pool". -/
theorem claim2_counterexample :
    (MasterState.addNode ⟨wAlloc [], []⟩ "n2" "").2.isSome = true
    ∧ (MasterState.addNode ⟨wAlloc [], []⟩ "n2" "").1.alloc ≠ wAlloc [] := by
  decide

/-- Claim C2 witness: the amended theorem applied at the loopback IP. -/
theorem claim2_witness :
    ("127.0.0.1" = "" ∨ "127.0.0.1" = "127.0.0.1")
    ∧ (MasterState.addNode ⟨wAlloc [], []⟩ "n9" "127.0.0.1").2.isSome = true
    ∧ (MasterState.addNode ⟨wAlloc [], []⟩ "n9" "127.0.0.1").1.reg = []
    ∧ (((wAlloc []).getNetwork = none
          ∧ (MasterState.addNode ⟨wAlloc [], []⟩ "n9" "127.0.0.1").1.alloc = wAlloc [])
      ∨ ∃ c, (MasterState.addNode ⟨wAlloc [], []⟩ "n9" "127.0.0.1").1.alloc.allocated
            = c :: (wAlloc []).allocated
          ∧ c ∉ (wAlloc []).allocated) := by
  have h := claim2_invalid_ip_rejected_but_leaks ⟨wAlloc [], []⟩ "n9" "127.0.0.1"
    (Or.inr rfl)
  exact ⟨Or.inr rfl, h.1, h.2.1, h.2.2⟩

/-- Claim C3: from any seeded start, after the sweep and any event sequence, at most
one live Subnet record exists per node name (the key list is duplicate-free); and an
Added event for a node whose existing record already carries the event's IP changes
neither the registry nor the allocator. -/
theorem claim3_single_assignment (network : Cidr) (subnetLen : Nat) (reg0 : Registry)
    (alloc0 : SubnetAllocator) (nodes : List Node) (evs : List NodeEvent)
    (n ip : String) (sub : SubnetM)
    (hseed : newSubnetAllocator network subnetLen
      (reg0.map fun p => p.2.SubnetCIDR) = some alloc0)
    (hkeys : (reg0.map Prod.fst).Nodup) :
    ((MasterState.processEvents
        (MasterState.serveExistingNodes ⟨alloc0, reg0⟩ nodes).1 evs).reg.map
      Prod.fst).Nodup
    ∧ (Registry.getSubnet (MasterState.processEvents
          (MasterState.serveExistingNodes ⟨alloc0, reg0⟩ nodes).1 evs).reg n
          = some sub →
        sub.NodeIP = ip →
        MasterState.handleNodeEvent (MasterState.processEvents
          (MasterState.serveExistingNodes ⟨alloc0, reg0⟩ nodes).1 evs)
          ⟨EventType.Added, ⟨n, ip⟩⟩
          = MasterState.processEvents
            (MasterState.serveExistingNodes ⟨alloc0, reg0⟩ nodes).1 evs) := by
  have h1 := ((Inv.seed hseed hkeys).serveExistingNodes nodes).processEvents evs
  exact ⟨h1.regKeys, fun hg hip => handleNodeEvent_same_ip_noop _ hg hip⟩

/-- Claim C3 witness: the theorem applied to a concrete seeded state; the replayed
Added event for n0 with its recorded IP is a strict no-op. -/
theorem claim3_witness :
    (newSubnetAllocator wNetwork 24 (wReg0.map fun p => p.2.SubnetCIDR)
        = some (wAlloc [wSub1])
      ∧ (wReg0.map Prod.fst).Nodup
      ∧ Registry.getSubnet (MasterState.processEvents
          (MasterState.serveExistingNodes ⟨wAlloc [wSub1], wReg0⟩ []).1 []).reg "n0"
          = some ⟨"1.1.1.1", wSub1⟩)
    ∧ ((MasterState.processEvents
        (MasterState.serveExistingNodes ⟨wAlloc [wSub1], wReg0⟩ []).1 []).reg.map
      Prod.fst).Nodup
    ∧ MasterState.handleNodeEvent (MasterState.processEvents
        (MasterState.serveExistingNodes ⟨wAlloc [wSub1], wReg0⟩ []).1 [])
        ⟨EventType.Added, ⟨"n0", "1.1.1.1"⟩⟩
        = MasterState.processEvents
          (MasterState.serveExistingNodes ⟨wAlloc [wSub1], wReg0⟩ []).1 [] := by
  have h := claim3_single_assignment wNetwork 24 wReg0 (wAlloc [wSub1]) [] []
    "n0" "1.1.1.1" ⟨"1.1.1.1", wSub1⟩ (by decide) (by decide)
  exact ⟨⟨by decide, by decide, by decide⟩, h.1, h.2 (by decide) rfl⟩

/-- Claim C4: an Added event for a node whose existing record carries a different IP
rewrites the record to the event's IP with the same CIDR, touching neither the
allocator nor any other record; if the DeleteSubnet step fails, the update is
aborted and the stale record is left in place. -/
theorem claim4_ip_change_preserves_cidr (st : MasterState) (n ip : String)
    (sub : SubnetM) (hg : Registry.getSubnet st.reg n = some sub)
    (hip : sub.NodeIP ≠ ip) :
    Registry.getSubnet (st.handleAdded n ip false false false).reg n
        = some ⟨ip, sub.SubnetCIDR⟩
    ∧ (st.handleAdded n ip false false false).alloc = st.alloc
    ∧ (∀ m, m ≠ n →
        Registry.getSubnet (st.handleAdded n ip false false false).reg m
          = Registry.getSubnet st.reg m)
    ∧ st.handleAdded n ip false true false = st := by
  have hf : ¬(false = true) := by decide
  unfold MasterState.handleAdded
  rw [hg]
  simp only [if_neg hf, if_pos (rfl : true = true), if_pos hip]
  refine ⟨?_, by trivial, ?_, by trivial⟩
  · exact Registry.getSubnet_createSubnet_self _ n _
  · intro m hm
    rw [Registry.getSubnet_createSubnet_ne _ _ hm, Registry.getSubnet_deleteSubnet_ne _ hm]

/-- Claim C4 witness: the theorem applied to node n0 whose record holds IP 1.1.1.1
and CIDR 10.1.1.0/24, receiving an Added event with IP 2.2.2.2. -/
theorem claim4_witness :
    (Registry.getSubnet wReg0 "n0" = some ⟨"1.1.1.1", wSub1⟩
      ∧ ("1.1.1.1" : String) ≠ "2.2.2.2")
    ∧ Registry.getSubnet (MasterState.handleAdded ⟨wAlloc [wSub1], wReg0⟩
        "n0" "2.2.2.2" false false false).reg "n0" = some ⟨"2.2.2.2", wSub1⟩
    ∧ (MasterState.handleAdded ⟨wAlloc [wSub1], wReg0⟩
        "n0" "2.2.2.2" false false false).alloc = wAlloc [wSub1]
    ∧ MasterState.handleAdded ⟨wAlloc [wSub1], wReg0⟩ "n0" "2.2.2.2" false true false
        = ⟨wAlloc [wSub1], wReg0⟩ := by
  have h := claim4_ip_change_preserves_cidr ⟨wAlloc [wSub1], wReg0⟩ "n0" "2.2.2.2"
    ⟨"1.1.1.1", wSub1⟩ (by decide) (by decide)
  exact ⟨⟨by decide, by decide⟩, h.1, h.2.1, h.2.2.2⟩

/-- Claim C5: `deleteNode` looks up the node's Subnet, parses its CIDR, releases the
parsed network to the allocator, then deletes the registry record; on lookup or
parse failure it returns the error with nothing released and nothing deleted. -/
theorem claim5_delete_node_order (alloc : SubnetAllocator) (reg : RegistryS)
    (n : String) :
    (RegistryS.getSubnet reg n = none →
        deleteNodeS alloc reg n = ((alloc, reg), some SdnErr.noSubnet))
    ∧ (∀ sub, RegistryS.getSubnet reg n = some sub →
        parseCIDR sub.SubnetCIDR = none →
        deleteNodeS alloc reg n = ((alloc, reg), some SdnErr.parseFailed))
    ∧ (∀ sub c, RegistryS.getSubnet reg n = some sub →
        parseCIDR sub.SubnetCIDR = some c →
        deleteNodeS alloc reg n
          = ((alloc.releaseNetwork c, RegistryS.deleteSubnet reg n), none)) := by
  refine ⟨?_, ?_, ?_⟩
  · intro h
    unfold deleteNodeS
    rw [h]
  · intro sub h hp
    unfold deleteNodeS
    rw [h]
    dsimp only
    rw [hp]
  · intro sub c h hp
    unfold deleteNodeS
    rw [h]
    dsimp only
    rw [hp]

/-- Claim C5 witness: the theorem applied to a missing node, a node with an
unparseable CIDR, and a node with CIDR 10.1.2.0/24 whose deletion releases exactly
that block and removes exactly that record. -/
theorem claim5_witness :
    (RegistryS.getSubnet wRegS "zz" = none
      ∧ deleteNodeS (wAlloc [wSub2]) wRegS "zz"
          = ((wAlloc [wSub2], wRegS), some SdnErr.noSubnet))
    ∧ (RegistryS.getSubnet wRegS "a" = some ⟨"1.1.1.1", "garbage"⟩
      ∧ parseCIDR "garbage" = none
      ∧ deleteNodeS (wAlloc [wSub2]) wRegS "a"
          = ((wAlloc [wSub2], wRegS), some SdnErr.parseFailed))
    ∧ (RegistryS.getSubnet wRegS "b" = some ⟨"2.2.2.2", "10.1.2.0/24"⟩
      ∧ parseCIDR "10.1.2.0/24" = some wSub2
      ∧ deleteNodeS (wAlloc [wSub2]) wRegS "b"
          = (((wAlloc [wSub2]).releaseNetwork wSub2,
              RegistryS.deleteSubnet wRegS "b"), none)) :=
  ⟨⟨by decide, (claim5_delete_node_order (wAlloc [wSub2]) wRegS "zz").1 (by decide)⟩,
   ⟨by decide, by decide,
    (claim5_delete_node_order (wAlloc [wSub2]) wRegS "a").2.1
      ⟨"1.1.1.1", "garbage"⟩ (by decide) (by decide)⟩,
   ⟨by decide, by decide,
    (claim5_delete_node_order (wAlloc [wSub2]) wRegS "b").2.2
      ⟨"2.2.2.2", "10.1.2.0/24"⟩ wSub2 (by decide) (by decide)⟩⟩

/-- Claim C6: Bootstrap polls GetSubnet(hostName) on a budget of exactly 20 attempts
spaced 500 ms apart; if every lookup fails it performs exactly 20 attempts and then
fails, neither earlier nor indefinitely; on the first successful lookup it stops
retrying and records the returned Subnet. -/
theorem claim6_bootstrap_retry_budget (lookup : Nat → Option Subnet) :
    selfSubnetRetries = 20 ∧ selfSubnetRetryIntervalMs = 500
    ∧ ((∀ i, lookup i = none) → initSelfSubnet lookup = (none, 20))
    ∧ (∀ j s, j < 20 → lookup j = some s → (∀ i, i < j → lookup i = none) →
        initSelfSubnet lookup = (some s, j + 1)) := by
  refine ⟨rfl, rfl, ?_, ?_⟩
  · intro h
    unfold initSelfSubnet selfSubnetRetries
    exact pollSelfSubnet_all_fail lookup h 20 0
  · intro j s hj hs hbefore
    unfold initSelfSubnet selfSubnetRetries
    exact pollSelfSubnet_first_success lookup s 20 0 j (Nat.zero_le j) (by omega) hs
      fun m _ hm2 => hbefore m hm2

/-- Claim C6 witness: the theorem applied to an always-failing lookup (exactly 20
attempts, then failure) and to a lookup that first succeeds on attempt index 2
(3 attempts, the found subnet recorded). -/
theorem claim6_witness :
    initSelfSubnet (fun _ => none) = (none, 20)
    ∧ (2 < 20
      ∧ (fun i => if i = 2 then some (⟨"4.4.4.4", "10.1.3.0/24"⟩ : Subnet) else none) 2
          = some ⟨"4.4.4.4", "10.1.3.0/24"⟩)
    ∧ initSelfSubnet
        (fun i => if i = 2 then some (⟨"4.4.4.4", "10.1.3.0/24"⟩ : Subnet) else none)
        = (some ⟨"4.4.4.4", "10.1.3.0/24"⟩, 3) :=
  ⟨(claim6_bootstrap_retry_budget _).2.2.1 fun _ => rfl,
   ⟨by decide, rfl⟩,
   (claim6_bootstrap_retry_budget _).2.2.2 2 _ (by decide) rfl
     (by intro i hi; interval_cases i <;> rfl)⟩

/-- Claim C7: during the master's initial sweep a subnet is allocated for a node if
and only if it lacks one. A sweep over fully covered nodes is a strict no-op;
pre-existing records survive untouched; every record present afterwards either
predates the sweep or belongs to a swept node that had no record at sweep start. -/
theorem claim7_sweep_allocates_iff_absent (st : MasterState) (nodes : List Node) :
    ((∀ node ∈ nodes, (Registry.getSubnet st.reg node.Name).isSome = true) →
        st.serveExistingNodes nodes = (st, none))
    ∧ (∀ p ∈ st.reg, p ∈ (st.serveExistingNodes nodes).1.reg)
    ∧ (∀ q ∈ (st.serveExistingNodes nodes).1.reg,
        q ∈ st.reg ∨ ∃ node, node ∈ nodes ∧ q.1 = node.Name
          ∧ Registry.getSubnet st.reg node.Name = none) :=
  ⟨serveExistingNodes_covered st nodes, serveExistingNodes_keeps st nodes,
   serveExistingNodes_new_records st nodes⟩

/-- Claim C7 witness: sweeping a node that already holds a record changes nothing,
and the record survives. -/
theorem claim7_witness :
    (∀ node ∈ [(⟨"n0", "1.1.1.1"⟩ : Node)],
        (Registry.getSubnet wReg0 node.Name).isSome = true)
    ∧ MasterState.serveExistingNodes ⟨wAlloc [wSub1], wReg0⟩ [⟨"n0", "1.1.1.1"⟩]
        = (⟨wAlloc [wSub1], wReg0⟩, none)
    ∧ ("n0", (⟨"1.1.1.1", wSub1⟩ : SubnetM))
        ∈ (MasterState.serveExistingNodes ⟨wAlloc [wSub1], wReg0⟩
            [⟨"n0", "1.1.1.1"⟩]).1.reg := by
  have h := claim7_sweep_allocates_iff_absent ⟨wAlloc [wSub1], wReg0⟩
    [⟨"n0", "1.1.1.1"⟩]
  exact ⟨by decide, h.1 (by decide), h.2.1 ("n0", ⟨"1.1.1.1", wSub1⟩) (by decide)⟩

/-- Claim C8: the node propagator's sweep issues AddOFRules(peerIP, peerCIDR, ownIP)
for every Subnet in the snapshot; the live loop issues AddOFRules with the event's
NodeIP and SubnetCIDR on every Added subnet event and DelOFRules with the event's
NodeIP on every Deleted subnet event. -/
theorem claim8_propagator_rules (localIP : String) (subnets : List Subnet)
    (evs : List SubnetEvent) :
    (∀ s ∈ subnets,
        OFOp.add s.NodeIP s.SubnetCIDR localIP ∈ nodeRunOps localIP subnets evs)
    ∧ (∀ ev ∈ evs, ev.kind = EventType.Added →
        OFOp.add ev.subnet.NodeIP ev.subnet.SubnetCIDR localIP
          ∈ nodeRunOps localIP subnets evs)
    ∧ (∀ ev ∈ evs, ev.kind = EventType.Deleted →
        OFOp.del ev.subnet.NodeIP localIP ∈ nodeRunOps localIP subnets evs) := by
  unfold nodeRunOps
  rw [foldl_nodeLoopStep]
  refine ⟨?_, ?_, ?_⟩
  · intro s hs
    refine List.mem_append_left _ ?_
    unfold nodeSweepOps
    exact List.mem_map_of_mem _ hs
  · intro ev hev hk
    refine List.mem_append_right _ ?_
    rw [List.mem_flatMap]
    refine ⟨ev, hev, ?_⟩
    unfold handleSubnetEvent
    rw [hk]
    exact List.mem_singleton_self _
  · intro ev hev hk
    refine List.mem_append_right _ ?_
    rw [List.mem_flatMap]
    refine ⟨ev, hev, ?_⟩
    unfold handleSubnetEvent
    rw [hk]
    exact List.mem_singleton_self _

/-- Claim C8 witness: the theorem applied to a one-subnet snapshot and one Added
plus one Deleted live event. -/
theorem claim8_witness :
    OFOp.add "9.9.9.9" "10.1.9.0/24" "7.7.7.7"
      ∈ nodeRunOps "7.7.7.7" [⟨"9.9.9.9", "10.1.9.0/24"⟩]
          [⟨EventType.Added, ⟨"8.8.8.8", "10.1.8.0/24"⟩⟩,
           ⟨EventType.Deleted, ⟨"6.6.6.6", "10.1.6.0/24"⟩⟩]
    ∧ OFOp.add "8.8.8.8" "10.1.8.0/24" "7.7.7.7"
      ∈ nodeRunOps "7.7.7.7" [⟨"9.9.9.9", "10.1.9.0/24"⟩]
          [⟨EventType.Added, ⟨"8.8.8.8", "10.1.8.0/24"⟩⟩,
           ⟨EventType.Deleted, ⟨"6.6.6.6", "10.1.6.0/24"⟩⟩]
    ∧ OFOp.del "6.6.6.6" "7.7.7.7"
      ∈ nodeRunOps "7.7.7.7" [⟨"9.9.9.9", "10.1.9.0/24"⟩]
          [⟨EventType.Added, ⟨"8.8.8.8", "10.1.8.0/24"⟩⟩,
           ⟨EventType.Deleted, ⟨"6.6.6.6", "10.1.6.0/24"⟩⟩] := by
  have h := claim8_propagator_rules "7.7.7.7" [⟨"9.9.9.9", "10.1.9.0/24"⟩]
    [⟨EventType.Added, ⟨"8.8.8.8", "10.1.8.0/24"⟩⟩,
     ⟨EventType.Deleted, ⟨"6.6.6.6", "10.1.6.0/24"⟩⟩]
  exact ⟨h.1 ⟨"9.9.9.9", "10.1.9.0/24"⟩ (by decide),
    h.2.1 ⟨EventType.Added, ⟨"8.8.8.8", "10.1.8.0/24"⟩⟩ (by decide) rfl,
    h.2.2 ⟨EventType.Deleted, ⟨"6.6.6.6", "10.1.6.0/24"⟩⟩ (by decide) rfl⟩

/-- Claim C9: after the shutdown signal, both watch loops send the stop request
(the returned flag) and return having processed exactly the events that preceded
the signal; the result does not depend on anything after the signal, so no further
addNode/deleteNode and no further AddOFRules/DelOFRules call occurs. -/
theorem claim9_shutdown_stops_processing (st : MasterState) (mevs : List NodeEvent)
    (mpost : List (LoopInput NodeEvent)) (localIP : String) (ops0 : List OFOp)
    (sevs : List SubnetEvent) (spost : List (LoopInput SubnetEvent)) :
    runWatchLoop MasterState.handleNodeEvent st
        (mevs.map LoopInput.ev ++ LoopInput.sig :: mpost)
      = (st.processEvents mevs, true)
    ∧ runWatchLoop (nodeLoopStep localIP) ops0
        (sevs.map LoopInput.ev ++ LoopInput.sig :: spost)
      = (sevs.foldl (nodeLoopStep localIP) ops0, true) :=
  ⟨runWatchLoop_events_then_sig _ st mevs mpost,
   runWatchLoop_events_then_sig _ ops0 sevs spost⟩

/-- Claim C10: in the master's Added handler and in the initial sweep, a failing
GetSubnet — injected here as a transient failure for a node that does hold a Subnet
— is treated exactly like "no subnet exists": addNode runs and takes a fresh network
from the allocator for that node name. -/
theorem claim10_getsubnet_error_triggers_addnode (st : MasterState) (n ip : String)
    (sub : SubnetM) (c : Cidr) (a' : SubnetAllocator) (df cf : Bool)
    (hsub : Registry.getSubnet st.reg n = some sub)
    (hnet : st.alloc.getNetwork = some (c, a')) :
    st.handleAdded n ip true df cf = (st.addNode n ip).1
    ∧ (st.addNode n ip).1.alloc.allocated = c :: st.alloc.allocated
    ∧ c ∉ st.alloc.allocated
    ∧ ∀ failGet : String → Bool, failGet n = true →
        (MasterState.serveExistingNodesO failGet st [⟨n, ip⟩]).1.alloc.allocated
          = c :: st.alloc.allocated := by
  obtain ⟨hfresh, hall, _, _⟩ := SubnetAllocator.getNetwork_eq_some hnet
  have halloc : (st.addNode n ip).1.alloc = a' := addNode_alloc n ip hnet
  refine ⟨rfl, ?_, not_mem_of_fresh hfresh, ?_⟩
  · rw [halloc, hall]
  · intro failGet hf
    unfold MasterState.serveExistingNodesO
    dsimp only
    rw [if_neg (by simp [hf])]
    cases ha : st.addNode n ip with
    | mk st' e =>
        have hst' : st'.alloc = a' := by rw [← halloc, ha]
        cases e with
        | some err =>
            dsimp only
            rw [hst', hall]
        | none =>
            dsimp only
            rw [show MasterState.serveExistingNodesO failGet st' [] = (st', none)
              from rfl]
            rw [hst', hall]

/-- Claim C10 witness: node n0 holds 10.1.1.0/24, yet under an injected GetSubnet
failure the handler and the sweep both take the fresh block 10.1.0.0/24 from the
allocator for n0. -/
theorem claim10_witness :
    (Registry.getSubnet wReg0 "n0" = some ⟨"1.1.1.1", wSub1⟩
      ∧ (wAlloc [wSub1]).getNetwork = some (wSub0, wAlloc [wSub0, wSub1]))
    ∧ MasterState.handleAdded ⟨wAlloc [wSub1], wReg0⟩ "n0" "5.5.5.5" true false false
        = (MasterState.addNode ⟨wAlloc [wSub1], wReg0⟩ "n0" "5.5.5.5").1
    ∧ (MasterState.addNode ⟨wAlloc [wSub1], wReg0⟩ "n0" "5.5.5.5").1.alloc.allocated
        = wSub0 :: (wAlloc [wSub1]).allocated
    ∧ wSub0 ∉ (wAlloc [wSub1]).allocated
    ∧ (MasterState.serveExistingNodesO (fun _ => true) ⟨wAlloc [wSub1], wReg0⟩
        [⟨"n0", "5.5.5.5"⟩]).1.alloc.allocated
        = wSub0 :: (wAlloc [wSub1]).allocated := by
  have h := claim10_getsubnet_error_triggers_addnode ⟨wAlloc [wSub1], wReg0⟩
    "n0" "5.5.5.5" ⟨"1.1.1.1", wSub1⟩ wSub0 (wAlloc [wSub0, wSub1]) false false
    (by decide) (by decide)
  exact ⟨⟨by decide, by decide⟩, h.1, h.2.1, h.2.2.1, h.2.2.2 (fun _ => true) rfl⟩

end OvsSubnet
